import Mathlib

/-!
Shallow embedding of the `dump` command's stream transcoder
(`write_all_values` and `write_all_in_format` in
`src/bin/ion/commands/dump.rs`) together with proofs of the
specification claims about it.

The Reader is modelled as a cursor over a list of tokens (one token per
`reader.next()` outcome carrying the value's annotations, optional field
name and payload), the Writer as a trace of the calls the transcoder
performs on it.  64-bit and 32-bit floats are modelled as their IEEE-754
bit patterns (`Nat` below `2 ^ 64` resp. `2 ^ 32`) with executable
round-to-nearest-even narrowing and exact widening casts.
-/

/-- Ion value type tags, mirroring `ion_rs::IonType`. -/
inductive IonType where
  | null | boolean | integer | float | decimal | timestamp
  | symbol | string | clob | blob | list | sexpression | struct
deriving DecidableEq

/-- A scalar item as presented by the Reader: a typed null or a decoded
scalar payload.  Non-float scalar payloads are opaque tokens because the
transcoder copies them verbatim; floats carry their 64-bit pattern since
the transcoder inspects them. -/
inductive SVal where
  | nullS (ty : IonType)
  | boolS (b : Bool)
  | intS (i : Int)
  | floatS (bits : Nat)
  | decimalS (d : Nat)
  | timestampS (ts : Nat)
  | symbolS (sy : Nat)
  | stringS (st : Nat)
  | clobS (c : Nat)
  | blobS (bl : Nat)
deriving DecidableEq

/-- One observable call performed on the Writer. -/
inductive WAct where
  | setAnnotations (anns : List Nat)
  | setFieldName (f : Nat)
  | writeNull (ty : IonType)
  | writeBool (b : Bool)
  | writeInteger (i : Int)
  | writeF32 (bits32 : Nat)
  | writeF64 (bits : Nat)
  | writeDecimal (d : Nat)
  | writeTimestamp (ts : Nat)
  | writeSymbol (sy : Nat)
  | writeString (st : Nat)
  | writeClob (c : Nat)
  | writeBlob (bl : Nat)
  | stepIn (ty : IonType)
  | stepOut
  | flush
deriving DecidableEq

/-- Failures of Reader/Writer operations, each propagated by a `?` in the
source: `source` covers Reader-side failures (malformed advance, scalar
or annotation decode, Reader `step_in`/`step_out`), `sink` covers
Writer-side I/O failures (`write_*`, `step_in`, `step_out`, `flush`),
and the remaining constructors are the structural failures. -/
inductive Err where
  | source (n : Nat)
  | sink (n : Nat)
  | badStepOut
  | writerStepOutAtTop
  | missingFieldName
deriving DecidableEq

/-- One `reader.next()` outcome: a scalar-or-null value, a container
start, the end of the current container (`Nothing` while `depth > 0`;
stream end is the exhausted token list), or a reader-side failure. -/
inductive Tok where
  | scalar (ann : List Nat) (fn : Option Nat) (sv : SVal)
  | start (ann : List Nat) (fn : Option Nat) (k : IonType)
  | end_
  | bad (n : Nat)
deriving DecidableEq

/-- The transcoder's loop state: the Reader's enclosing-container stack
(`reader.depth()` is its length, `reader.parent_type()` its head), the
Writer's depth, the reusable annotation buffer, the `values_since_flush`
counter and the Writer trace so far. -/
structure LoopSt where
  stack : List IonType
  wdepth : Nat
  annotations : List Nat
  values_since_flush : Nat
  trace : List WAct
deriving DecidableEq

/-- Result of one loop iteration. -/
inductive StepRes where
  | cont (s : LoopSt)
  | brk (trace : List WAct)
  | fail (e : Err) (trace : List WAct)
deriving DecidableEq

/-! ## IEEE-754 bit-level float model -/

/-- Sign bit of a 64-bit float pattern. -/
def f64SignOf (b : Nat) : Nat := b / 2 ^ 63 % 2

/-- Biased exponent field of a 64-bit float pattern. -/
def f64ExpOf (b : Nat) : Nat := b / 2 ^ 52 % 2 ^ 11

/-- Mantissa field of a 64-bit float pattern. -/
def f64FracOf (b : Nat) : Nat := b % 2 ^ 52

/-- Sign bit of a 32-bit float pattern. -/
def f32SignOf (b : Nat) : Nat := b / 2 ^ 31 % 2

/-- Biased exponent field of a 32-bit float pattern. -/
def f32ExpOf (b : Nat) : Nat := b / 2 ^ 23 % 2 ^ 8

/-- Mantissa field of a 32-bit float pattern. -/
def f32FracOf (b : Nat) : Nat := b % 2 ^ 23

/-- Whether a 64-bit pattern is a NaN. -/
def isNan64 (b : Nat) : Bool := f64ExpOf b == 2047 && f64FracOf b != 0

/-- Whether a 64-bit pattern is a (positive or negative) zero. -/
def isZero64 (b : Nat) : Bool := f64ExpOf b == 0 && f64FracOf b == 0

/-- Floor base-2 logarithm by fuelled halving (structural, so that the
kernel can evaluate it; the fuel argument only bounds the recursion). -/
def log2p : Nat → Nat → Nat
  | 0, _ => 0
  | fuel + 1, n => if n ≤ 1 then 0 else log2p fuel (n / 2) + 1

/-- Floor base-2 logarithm of a positive number. -/
def nlog2 (n : Nat) : Nat := log2p n n

/-- Round the positive real `M * 2 ^ E` to the nearest integer multiple
`n` of `2 ^ G`, ties to even (the IEEE-754 default rounding). -/
def roundAt (M : Nat) (E G : Int) : Nat :=
  if G ≤ E then M * 2 ^ (E - G).toNat
  else
    let d := 2 ^ (G - E).toNat
    let q := M / d
    let r := M % d
    if 2 * r < d then q
    else if 2 * r > d then q + 1
    else if q % 2 == 0 then q else q + 1

/-- The Rust `f64 as f32` cast on bit patterns: round to nearest
representable 32-bit value (ties to even), overflow saturating to
infinity; NaNs are quieted with the payload truncated (the behaviour of
the mainstream hardware the binary runs on). -/
def f64_as_f32 (b : Nat) : Nat :=
  let s := f64SignOf b
  let e := f64ExpOf b
  let m := f64FracOf b
  if e == 2047 then
    if m == 0 then s * 2 ^ 31 + 255 * 2 ^ 23
    else s * 2 ^ 31 + 255 * 2 ^ 23 + 2 ^ 22 + m / 2 ^ 29 % 2 ^ 22
  else
    let M := if e == 0 then m else 2 ^ 52 + m
    let E : Int := if e == 0 then -1074 else (e : Int) - 1075
    if M == 0 then s * 2 ^ 31
    else
      let k : Int := (nlog2 M : Int) + E
      let G : Int := max (-149) (k - 23)
      let n0 := roundAt M E G
      let n := if n0 == 2 ^ 24 then 2 ^ 23 else n0
      let G2 := if n0 == 2 ^ 24 then G + 1 else G
      if n < 2 ^ 23 then s * 2 ^ 31 + n
      else
        let e32 : Int := G2 + 150
        if 255 ≤ e32 then s * 2 ^ 31 + 255 * 2 ^ 23
        else s * 2 ^ 31 + e32.toNat * 2 ^ 23 + (n - 2 ^ 23)

/-- The Rust `f32 as f64` cast on bit patterns: exact widening; NaN
payloads are shifted into the wider mantissa. -/
def f32_as_f64 (b : Nat) : Nat :=
  let s := f32SignOf b
  let e := f32ExpOf b
  let m := f32FracOf b
  if e == 255 then
    if m == 0 then s * 2 ^ 63 + 2047 * 2 ^ 52
    else s * 2 ^ 63 + 2047 * 2 ^ 52 + m * 2 ^ 29
  else if e == 0 then
    if m == 0 then s * 2 ^ 63
    else
      let l := nlog2 m
      s * 2 ^ 63 + (l + 874) * 2 ^ 52 + (m - 2 ^ l) * 2 ^ (52 - l)
  else s * 2 ^ 63 + (e + 896) * 2 ^ 52 + m * 2 ^ 29

/-- Rust `==` on two 64-bit float patterns: NaN compares equal to
nothing, the two zeros compare equal, every other value is equal exactly
to its own bit pattern. -/
def f64eq (a b : Nat) : Bool :=
  if isNan64 a || isNan64 b then false
  else if isZero64 a && isZero64 b then true
  else a == b

/-- The narrowing decision of the float arm of `write_all_values`: emit
the 32-bit form exactly when casting down and back up compares equal
(Rust `==`) to the original. -/
def narrows32 (bits : Nat) : Bool := f64eq (f32_as_f64 (f64_as_f32 bits)) bits

/-! ## The transcoder -/

/-- The flush threshold `FLUSH_EVERY_N` of `write_all_values`. -/
def FLUSH_EVERY_N : Nat := 100

/-- Writer calls performed for a value's annotations: the source calls
`writer.set_annotations` only when `reader.has_annotations()`. -/
def annActs (ann : List Nat) : List WAct :=
  if ann.isEmpty then [] else [WAct.setAnnotations ann]

/-- The reusable annotation buffer after one value: cleared and refilled
when the value carries annotations, left untouched otherwise. -/
def annBuf' (ann buf : List Nat) : List Nat :=
  if ann.isEmpty then buf else ann

/-- Writer calls for a decoded field name. -/
def fnActs : Option Nat → List WAct
  | some f => [WAct.setFieldName f]
  | none => []

/-- The field-name step: when the enclosing container is a struct the
source decodes `reader.field_name()` (failing when the stream carries
none) and attaches it; otherwise it does nothing. -/
def fnEmit (fn : Option Nat) (inStruct : Bool) : Option (List WAct) :=
  if inStruct then
    match fn with
    | some f => some [WAct.setFieldName f]
    | none => none
  else some []

/-- Counter after the depth-0 check at the bottom of the loop:
`values_since_flush` increments at depth 0 and resets when it reaches
`FLUSH_EVERY_N`. -/
def postCount (stack : List IonType) (c : Nat) : Nat :=
  if stack.isEmpty then (if c + 1 == FLUSH_EVERY_N then 0 else c + 1) else c

/-- Writer calls of the depth-0 check at the bottom of the loop: a flush
exactly when the incremented counter reaches `FLUSH_EVERY_N`. -/
def postTrace (stack : List IonType) (c : Nat) : List WAct :=
  if stack.isEmpty then (if c + 1 == FLUSH_EVERY_N then [WAct.flush] else []) else []

/-- The scalar dispatch of `write_all_values`: each non-null scalar is
decoded and written verbatim except floats, which are narrowed to 32 bits
when the cast round-trips under `==`. -/
def scalarAct : SVal → WAct
  | .nullS ty => .writeNull ty
  | .boolS b => .writeBool b
  | .intS i => .writeInteger i
  | .floatS bits =>
    let float32 := f64_as_f32 bits
    if f64eq (f32_as_f64 float32) bits then .writeF32 float32 else .writeF64 bits
  | .decimalS d => .writeDecimal d
  | .timestampS ts => .writeTimestamp ts
  | .symbolS sy => .writeSymbol sy
  | .stringS st => .writeString st
  | .clobS c => .writeClob c
  | .blobS bl => .writeBlob bl

/-- One iteration of the `write_all_values` loop on one `reader.next()`
outcome: annotations, then the field name when the parent is a struct,
then the typed-null fast path (which `continue`s past the depth-0 flush
check), then scalar/container dispatch, then the depth-0 flush check. -/
def step1 (t : Tok) (s : LoopSt) : StepRes :=
  match t with
  | .bad n => .fail (.source n) s.trace
  | .end_ =>
    if s.stack.isEmpty then .brk s.trace
    else
      match s.wdepth with
      | 0 => .fail .writerStepOutAtTop s.trace
      | w + 1 =>
        .cont ⟨s.stack.tail, w, s.annotations,
          postCount s.stack.tail s.values_since_flush,
          (s.trace ++ [WAct.stepOut]) ++ postTrace s.stack.tail s.values_since_flush⟩
  | .scalar ann fn sv =>
    match fnEmit fn (s.stack.head? == some IonType.struct) with
    | none => .fail .missingFieldName (s.trace ++ annActs ann)
    | some fa =>
      match sv with
      | .nullS ty =>
        .cont ⟨s.stack, s.wdepth, annBuf' ann s.annotations, s.values_since_flush,
          ((s.trace ++ annActs ann) ++ fa) ++ [WAct.writeNull ty]⟩
      | sv =>
        .cont ⟨s.stack, s.wdepth, annBuf' ann s.annotations,
          postCount s.stack s.values_since_flush,
          (((s.trace ++ annActs ann) ++ fa) ++ [scalarAct sv])
            ++ postTrace s.stack s.values_since_flush⟩
  | .start ann fn k =>
    match fnEmit fn (s.stack.head? == some IonType.struct) with
    | none => .fail .missingFieldName (s.trace ++ annActs ann)
    | some fa =>
      .cont ⟨k :: s.stack, s.wdepth + 1, annBuf' ann s.annotations,
        postCount (k :: s.stack) s.values_since_flush,
        (((s.trace ++ annActs ann) ++ fa) ++ [WAct.stepIn k])
          ++ postTrace (k :: s.stack) s.values_since_flush⟩

/-- One loop iteration including the `reader.next()` outcomes at the end
of the token list: `Nothing` at depth 0 breaks the loop, `Nothing` with
an open container but no container end left fails the Reader's
`step_out`. -/
def step (toks : List Tok) (s : LoopSt) : StepRes :=
  match toks with
  | [] => if s.stack.isEmpty then .brk s.trace else .fail .badStepOut s.trace
  | t :: _ => step1 t s

/-- The transcoder loop: iterate `step1` to exhaustion, then perform the
unconditional final flush; the first failure aborts with its error. -/
def runGo : List Tok → LoopSt → List WAct × Option Err
  | [], s =>
    if s.stack.isEmpty then (s.trace ++ [WAct.flush], none)
    else (s.trace, some Err.badStepOut)
  | t :: rest, s =>
    match step1 t s with
    | .cont s2 => runGo rest s2
    | .brk tr => (tr ++ [WAct.flush], none)
    | .fail e tr => (tr, some e)

/-- The initial loop state of `write_all_values`: empty annotation
buffer, zero counter, top level. -/
def initState : LoopSt := ⟨[], 0, [], 0, []⟩

/-- `write_all_values`: transcode every value of the Reader to the
Writer. -/
def write_all_values (toks : List Tok) : List WAct × Option Err :=
  runGo toks initState

/-- The Writer configuration built by each arm of
`write_all_in_format`. -/
inductive WriterKind where
  | pretty | text | lines | binary
deriving DecidableEq

/-- `write_all_in_format`: select the Writer configuration for the format
tag and run `write_all_values` with it; an unrecognized tag is the
`unreachable!` arm, modelled as `none`. -/
def write_all_in_format (format : String) (toks : List Tok) :
    Option (WriterKind × (List WAct × Option Err)) :=
  match format with
  | "pretty" => some (WriterKind.pretty, write_all_values toks)
  | "text" => some (WriterKind.text, write_all_values toks)
  | "lines" => some (WriterKind.lines, write_all_values toks)
  | "binary" => some (WriterKind.binary, write_all_values toks)
  | _ => none

/-- The closed set of format tags `clap` validates in `app()`. -/
def app_format_values : List String := ["binary", "text", "pretty", "lines"]

/-! ## Well-formed input streams as value trees -/

mutual
/-- An Ion value tree: a scalar (or typed null) or a container of
annotated children. -/
inductive IValue where
  | scalarV (sv : SVal)
  | listV (children : ISeq)
  | sexpV (children : ISeq)
  | structV (children : IFSeq)

/-- Children of a list-like or s-expression-like container, each with its
annotation list. -/
inductive ISeq where
  | nil
  | cons (ann : List Nat) (v : IValue) (rest : ISeq)

/-- Children of a struct-like container, each with a field name and its
annotation list. -/
inductive IFSeq where
  | fnil
  | fcons (f : Nat) (ann : List Nat) (v : IValue) (rest : IFSeq)
end

mutual
/-- Reader tokens produced by one value (with its annotations and
field-name context). -/
def flattenV : Option Nat → List Nat → IValue → List Tok
  | fn, ann, .scalarV sv => [.scalar ann fn sv]
  | fn, ann, .listV c => .start ann fn IonType.list :: (flattenISeq c ++ [.end_])
  | fn, ann, .sexpV c => .start ann fn IonType.sexpression :: (flattenISeq c ++ [.end_])
  | fn, ann, .structV c => .start ann fn IonType.struct :: (flattenIFSeq c ++ [.end_])

/-- Reader tokens of list/sexp children (no field names). -/
def flattenISeq : ISeq → List Tok
  | .nil => []
  | .cons ann v rest => flattenV none ann v ++ flattenISeq rest

/-- Reader tokens of struct children (with field names). -/
def flattenIFSeq : IFSeq → List Tok
  | .fnil => []
  | .fcons f ann v rest => flattenV (some f) ann v ++ flattenIFSeq rest
end

/-- Reader tokens of a top-level stream of annotated values. -/
def flattenTop : List (List Nat × IValue) → List Tok
  | [] => []
  | (ann, v) :: rest => flattenV none ann v ++ flattenTop rest

/-- Writer calls for a value's metadata (annotations then field name). -/
def metaActs (ann : List Nat) (fn : Option Nat) : List WAct :=
  annActs ann ++ fnActs fn

mutual
/-- The Writer calls one value's transcoding produces (flush calls
excluded; those depend on the counter). -/
def emitV : Option Nat → List Nat → IValue → List WAct
  | fn, ann, .scalarV sv => metaActs ann fn ++ [scalarAct sv]
  | fn, ann, .listV c => metaActs ann fn ++ (WAct.stepIn IonType.list :: (emitISeq c ++ [WAct.stepOut]))
  | fn, ann, .sexpV c => metaActs ann fn ++ (WAct.stepIn IonType.sexpression :: (emitISeq c ++ [WAct.stepOut]))
  | fn, ann, .structV c => metaActs ann fn ++ (WAct.stepIn IonType.struct :: (emitIFSeq c ++ [WAct.stepOut]))

/-- Writer calls of list/sexp children. -/
def emitISeq : ISeq → List WAct
  | .nil => []
  | .cons ann v rest => emitV none ann v ++ emitISeq rest

/-- Writer calls of struct children. -/
def emitIFSeq : IFSeq → List WAct
  | .fnil => []
  | .fcons f ann v rest => emitV (some f) ann v ++ emitIFSeq rest
end

/-- Writer calls of a top-level stream, flush calls excluded. -/
def emitTopList : List (List Nat × IValue) → List WAct
  | [] => []
  | (ann, v) :: rest => emitV none ann v ++ emitTopList rest

/-- Whether a value is a typed null. -/
def isNullV : IValue → Bool
  | .scalarV (.nullS _) => true
  | _ => false

/-- Counter after one fully emitted top-level value: typed nulls bypass
the check, every other value increments (and resets at the
threshold). -/
def postCnt (c : Nat) (v : IValue) : Nat :=
  if isNullV v then c else (if c + 1 == FLUSH_EVERY_N then 0 else c + 1)

/-- Flush calls after one fully emitted top-level value. -/
def postFlush (c : Nat) (v : IValue) : List WAct :=
  if isNullV v then [] else (if c + 1 == FLUSH_EVERY_N then [WAct.flush] else [])

/-- Writer calls of a top-level stream including the intermediate flush
calls forced by the counter (threaded through). -/
def emitTop : Nat → List (List Nat × IValue) → List WAct
  | _, [] => []
  | c, (ann, v) :: rest => emitV none ann v ++ postFlush c v ++ emitTop (postCnt c v) rest

/-- A stream of `n` top-level untyped nulls. -/
def nullTops (n : Nat) : List (List Nat × IValue) :=
  List.replicate n ([], IValue.scalarV (SVal.nullS IonType.null))

/-- Number of flush calls in a Writer trace. -/
def countFlush (l : List WAct) : Nat := l.count WAct.flush

/-! ## Helper lemmas -/

theorem fnEmit_of_isSome (fn : Option Nat) (b : Bool) (h : b = fn.isSome) :
    fnEmit fn b = some (fnActs fn) := by
  cases fn <;> cases b <;> simp_all [fnEmit, fnActs]

theorem scalarAct_shape (sv : SVal) :
    (∀ l, scalarAct sv ≠ .setAnnotations l) ∧ (∀ f, scalarAct sv ≠ .setFieldName f) ∧
    (∀ k, scalarAct sv ≠ .stepIn k) ∧ scalarAct sv ≠ .stepOut ∧ scalarAct sv ≠ .flush := by
  cases sv <;> simp only [scalarAct] <;> (try split) <;> simp

theorem mem_annActs {a : WAct} {ann : List Nat} (h : a ∈ annActs ann) :
    a = .setAnnotations ann := by
  unfold annActs at h
  split at h <;> simp_all

theorem mem_fnActs {a : WAct} {fn : Option Nat} (h : a ∈ fnActs fn) :
    ∃ f, fn = some f ∧ a = .setFieldName f := by
  cases fn <;> simp_all [fnActs]

theorem mem_postTrace {a : WAct} {st : List IonType} {c : Nat} (h : a ∈ postTrace st c) :
    a = .flush := by
  unfold postTrace at h
  split at h <;> [skip; simp_all]
  split at h <;> simp_all

/-! ## Claim C7: error propagation -/

/-- One `reader.next()` outcome in the fallible Reader model: the
annotation sequence decodes to a prefix after which decoding one more
annotation may fail, the field name may be absent, the scalar decode may
fail, and the Reader's own `step_in` (on a container start) or
`step_out` (at a container end) may fail. -/
inductive TokF where
  | scalar (annPre : List Nat) (annErr : Option Nat) (fn : Option Nat) (sv : Sum Nat SVal)
  | start (annPre : List Nat) (annErr : Option Nat) (fn : Option Nat) (k : IonType)
      (rdStepErr : Option Nat)
  | end_ (rdStepErr : Option Nat)
  | bad (n : Nat)
deriving DecidableEq

/-- Loop state of the fallible model: as `LoopSt`, plus the sink-failure
schedule of the Writer — one entry is consumed by each fallible Writer
call (`write_*`, `step_in`, `step_out`, `flush`; in the source
`set_annotations` and `set_field_name` carry no `?` and cannot fail),
and a `some e` entry makes that call fail with sink error `e`. -/
structure LoopStF where
  stack : List IonType
  wdepth : Nat
  annotations : List Nat
  values_since_flush : Nat
  trace : List WAct
  wsched : List (Option Nat)
deriving DecidableEq

/-- Result of one fallible loop iteration. -/
inductive StepResF where
  | cont (s : LoopStF)
  | brk (trace : List WAct) (wsched : List (Option Nat))
  | fail (e : Err) (trace : List WAct)
deriving DecidableEq

/-- Consume one schedule entry for one fallible Writer call. -/
def wcall : List (Option Nat) → Option Nat × List (Option Nat)
  | [] => (none, [])
  | o :: rest => (o, rest)

/-- The annotation block with fallible per-annotation decoding: when the
value carries annotations the buffer is cleared and refilled one
annotation at a time; if one `annotation?` fails, the iteration aborts
before `set_annotations` is reached, so no Writer call happens. -/
def annStepF (annPre : List Nat) (annErr : Option Nat) (buf : List Nat)
    (tr : List WAct) : Sum Nat (List Nat × List WAct) :=
  if annPre.isEmpty && annErr.isNone then .inr (buf, tr)
  else
    match annErr with
    | some e => .inl e
    | none => .inr (annPre, tr ++ [WAct.setAnnotations annPre])

/-- The depth-0 check with the fallible `writer.flush()?`. -/
def checkF (stack : List IonType) (c : Nat) (tr : List WAct)
    (sched : List (Option Nat)) :
    Sum (Err × List WAct) (Nat × List WAct × List (Option Nat)) :=
  if stack.isEmpty then
    if c + 1 == FLUSH_EVERY_N then
      match wcall sched with
      | (some e, _) => .inl (.sink e, tr)
      | (none, sched2) => .inr (0, tr ++ [WAct.flush], sched2)
    else .inr (c + 1, tr, sched)
  else .inr (c, tr, sched)

/-- One iteration of the loop in the fallible model, mirroring the
source's order of fallible calls: `next`, annotation decode,
`field_name`, the null fast path's `write_null`, scalar decode then
`write_*`, Reader `step_in` then Writer `step_in`, Reader `step_out`
then Writer `step_out`, and the depth-0 `flush`. -/
def step1F (t : TokF) (s : LoopStF) : StepResF :=
  match t with
  | .bad n => .fail (.source n) s.trace
  | .end_ rdE =>
    if s.stack.isEmpty then .brk s.trace s.wsched
    else
      match rdE with
      | some e => .fail (.source e) s.trace
      | none =>
        match s.wdepth with
        | 0 => .fail .writerStepOutAtTop s.trace
        | w + 1 =>
          match wcall s.wsched with
          | (some e, _) => .fail (.sink e) s.trace
          | (none, sched2) =>
            match checkF s.stack.tail s.values_since_flush
                (s.trace ++ [WAct.stepOut]) sched2 with
            | .inl (e, tr3) => .fail e tr3
            | .inr (c2, tr3, sched3) =>
              .cont ⟨s.stack.tail, w, s.annotations, c2, tr3, sched3⟩
  | .scalar annPre annErr fn sv =>
    match annStepF annPre annErr s.annotations s.trace with
    | .inl e => .fail (.source e) s.trace
    | .inr (buf, tr1) =>
      match fnEmit fn (s.stack.head? == some IonType.struct) with
      | none => .fail .missingFieldName tr1
      | some fa =>
        match sv with
        | .inl e => .fail (.source e) (tr1 ++ fa)
        | .inr sv2 =>
          match wcall s.wsched with
          | (some e, _) => .fail (.sink e) (tr1 ++ fa)
          | (none, sched2) =>
            match sv2 with
            | .nullS ty =>
              .cont ⟨s.stack, s.wdepth, buf, s.values_since_flush,
                (tr1 ++ fa) ++ [WAct.writeNull ty], sched2⟩
            | sv3 =>
              match checkF s.stack s.values_since_flush
                  ((tr1 ++ fa) ++ [scalarAct sv3]) sched2 with
              | .inl (e, tr3) => .fail e tr3
              | .inr (c2, tr3, sched3) =>
                .cont ⟨s.stack, s.wdepth, buf, c2, tr3, sched3⟩
  | .start annPre annErr fn k rdE =>
    match annStepF annPre annErr s.annotations s.trace with
    | .inl e => .fail (.source e) s.trace
    | .inr (buf, tr1) =>
      match fnEmit fn (s.stack.head? == some IonType.struct) with
      | none => .fail .missingFieldName tr1
      | some fa =>
        match rdE with
        | some e => .fail (.source e) (tr1 ++ fa)
        | none =>
          match wcall s.wsched with
          | (some e, _) => .fail (.sink e) (tr1 ++ fa)
          | (none, sched2) =>
            match checkF (k :: s.stack) s.values_since_flush
                ((tr1 ++ fa) ++ [WAct.stepIn k]) sched2 with
            | .inl (e, tr3) => .fail e tr3
            | .inr (c2, tr3, sched3) =>
              .cont ⟨k :: s.stack, s.wdepth + 1, buf, c2, tr3, sched3⟩

/-- One fallible loop iteration including the end-of-token-list
outcomes. -/
def stepF (toks : List TokF) (s : LoopStF) : StepResF :=
  match toks with
  | [] => if s.stack.isEmpty then .brk s.trace s.wsched else .fail .badStepOut s.trace
  | t :: _ => step1F t s

/-- The unconditional final `writer.flush()?` after the loop, itself
fallible. -/
def finalFlushF (tr : List WAct) (sched : List (Option Nat)) :
    List WAct × Option Err :=
  match wcall sched with
  | (some e, _) => (tr, some (.sink e))
  | (none, _) => (tr ++ [WAct.flush], none)

/-- The transcoder loop in the fallible model. -/
def runGoF : List TokF → LoopStF → List WAct × Option Err
  | [], s =>
    if s.stack.isEmpty then finalFlushF s.trace s.wsched
    else (s.trace, some Err.badStepOut)
  | t :: rest, s =>
    match step1F t s with
    | .cont s2 => runGoF rest s2
    | .brk tr sched => finalFlushF tr sched
    | .fail e tr => (tr, some e)

/-- Initial state of the fallible model under a given Writer sink-failure
schedule. -/
def initStF (wsched : List (Option Nat)) : LoopStF := ⟨[], 0, [], 0, [], wsched⟩

/-- `write_all_values` in the fallible model. -/
def write_all_valuesF (toks : List TokF) (wsched : List (Option Nat)) :
    List WAct × Option Err :=
  runGoF toks (initStF wsched)

/-- A failure-free token is a fallible token with no failure marks. -/
def liftTok : Tok → TokF
  | .scalar ann fn sv => .scalar ann none fn (Sum.inr sv)
  | .start ann fn k => .start ann none fn k none
  | .end_ => .end_ none
  | .bad n => .bad n

theorem annStepF_clear (ann : List Nat) (buf : List Nat) (tr : List WAct) :
    annStepF ann none buf tr = .inr (annBuf' ann buf, tr ++ annActs ann) := by
  unfold annStepF annBuf' annActs
  cases h : ann.isEmpty <;> simp [h]

theorem checkF_clear (stack : List IonType) (c : Nat) (tr : List WAct) :
    checkF stack c tr [] = .inr (postCount stack c, tr ++ postTrace stack c, []) := by
  unfold checkF postCount postTrace wcall
  by_cases hs : stack.isEmpty
  · by_cases hc : (c + 1 == FLUSH_EVERY_N) = true
    · simp [hs, hc]
    · simp [hs, hc]
  · simp [hs]

/-- One failure-free iteration of the fallible model is one iteration of
the plain model. -/
theorem step1F_lift (t : Tok) (stack : List IonType) (w : Nat) (buf : List Nat)
    (c : Nat) (tr : List WAct) :
    step1F (liftTok t) ⟨stack, w, buf, c, tr, []⟩
      = match step1 t ⟨stack, w, buf, c, tr⟩ with
        | .cont s2 => .cont ⟨s2.stack, s2.wdepth, s2.annotations,
            s2.values_since_flush, s2.trace, []⟩
        | .brk tr2 => .brk tr2 []
        | .fail e tr2 => .fail e tr2 := by
  cases t with
  | bad n => rfl
  | end_ =>
    simp only [liftTok, step1F, step1]
    cases hs : stack.isEmpty with
    | true => simp [hs]
    | false =>
      cases w with
      | zero => simp [hs]
      | succ w2 =>
        simp only [hs, Bool.false_eq_true, if_false, wcall, checkF_clear]
  | scalar ann fn sv =>
    simp only [liftTok, step1F, step1, annStepF_clear]
    rcases hfe : fnEmit fn (stack.head? == some IonType.struct) with _ | fa
    · simp [hfe]
    · cases sv <;> simp [hfe, wcall, checkF_clear]
  | start ann fn k =>
    simp only [liftTok, step1F, step1, annStepF_clear]
    rcases hfe : fnEmit fn (stack.head? == some IonType.struct) with _ | fa
    · simp [hfe]
    · simp [hfe, wcall, checkF_clear]

/-- On failure-free tokens and an all-clear sink schedule the fallible
model coincides with the plain model. -/
theorem runGoF_lift (toks : List Tok) :
    ∀ (stack : List IonType) (w : Nat) (buf : List Nat) (c : Nat) (tr : List WAct),
    runGoF (toks.map liftTok) ⟨stack, w, buf, c, tr, []⟩
      = runGo toks ⟨stack, w, buf, c, tr⟩ := by
  induction toks with
  | nil =>
    intro stack w buf c tr
    simp only [List.map_nil, runGoF, runGo]
    cases hs : stack.isEmpty <;> simp [hs, finalFlushF, wcall]
  | cons t rest ih =>
    intro stack w buf c tr
    simp only [List.map_cons, runGoF, runGo]
    rw [step1F_lift t stack w buf c tr]
    cases hs : step1 t ⟨stack, w, buf, c, tr⟩ with
    | cont s2 =>
      obtain ⟨st2, w2, b2, c2, tr2⟩ := s2
      exact ih st2 w2 b2 c2 tr2
    | brk tr2 => simp [finalFlushF, wcall]
    | fail e tr2 => rfl

/-- Claim C7: every Reader or Writer operation failure aborts the
transcode at once — the failing operation's error is returned unchanged,
the Writer trace is exactly the trace at the failure (no operation after
it, in particular the final flush is skipped), and no failure is caught
or retried.  The closed conjuncts exhibit each failure mode: a failing
`next`, a failing annotation decode, a failing scalar decode, a failing
`write_*` (sink), a failing Reader `step_in`, a failing Writer `step_in`
(sink), a failing Reader `step_out`, a mid-stream sink failure that
keeps the already-written prefix, a failing intermediate flush at the
threshold, and a failing final flush. -/
theorem error_propagation :
    (∀ (toks : List TokF) (s : LoopStF) (e : Err) (tr : List WAct),
        stepF toks s = .fail e tr → runGoF toks s = (tr, some e))
    ∧ runGoF [TokF.bad 3] (initStF []) = ([], some (Err.source 3))
    ∧ runGoF [TokF.scalar [7] (some 4) none (Sum.inr (SVal.boolS true))] (initStF [])
        = ([], some (Err.source 4))
    ∧ runGoF [TokF.scalar [] none none (Sum.inl 5)] (initStF [])
        = ([], some (Err.source 5))
    ∧ runGoF [TokF.scalar [] none none (Sum.inr (SVal.intS 1))] (initStF [some 6])
        = ([], some (Err.sink 6))
    ∧ runGoF [TokF.start [] none none IonType.list (some 7)] (initStF [])
        = ([], some (Err.source 7))
    ∧ runGoF [TokF.start [] none none IonType.list none] (initStF [some 8])
        = ([], some (Err.sink 8))
    ∧ runGoF [TokF.start [] none none IonType.list none, TokF.end_ (some 9)] (initStF [])
        = ([WAct.stepIn IonType.list], some (Err.source 9))
    ∧ runGoF [TokF.scalar [] none none (Sum.inr (SVal.intS 1)), TokF.bad 2] (initStF [])
        = ([WAct.writeInteger 1], some (Err.source 2))
    ∧ runGoF [TokF.scalar [] none none (Sum.inr (SVal.intS 1))]
        ⟨[], 0, [], 99, [], [none, some 10]⟩
        = ([WAct.writeInteger 1], some (Err.sink 10))
    ∧ runGoF [] (initStF [some 12]) = ([], some (Err.sink 12)) := by
  refine ⟨?_, by decide, by decide, by decide, by decide, by decide, by decide,
    by decide, by decide, by decide, by decide⟩
  intro toks s e tr h
  cases toks with
  | nil =>
    simp only [stepF] at h
    cases hs : s.stack.isEmpty with
    | true => simp [hs] at h
    | false =>
      simp only [hs, Bool.false_eq_true, if_false] at h
      cases h
      unfold runGoF
      simp [hs]
  | cons t rest =>
    simp only [stepF] at h
    unfold runGoF
    rw [h]

/-- Witness for C7 at a concrete mid-transcode state: the Writer's
`step_out` fails with a sink error while a container is open; the
already-written prefix is kept, the error is propagated unchanged and
the final flush is skipped. -/
theorem error_propagation_witness :
    runGoF [TokF.end_ none]
        ⟨[IonType.list], 1, [], 0, [WAct.stepIn IonType.list], [some 11]⟩
      = ([WAct.stepIn IonType.list], some (Err.sink 11)) :=
  error_propagation.1 [TokF.end_ none]
    ⟨[IonType.list], 1, [], 0, [WAct.stepIn IonType.list], [some 11]⟩
    (Err.sink 11) [WAct.stepIn IonType.list] (by decide)

/-- Whether a Reader scalar item is a typed null
(`reader.is_null()`). -/
def isNullS : SVal → Bool
  | .nullS _ => true
  | _ => false

theorem postCount_cons (k : IonType) (st : List IonType) (c : Nat) :
    postCount (k :: st) c = c := rfl

theorem postTrace_cons (k : IonType) (st : List IonType) (c : Nat) :
    postTrace (k :: st) c = [] := rfl

theorem fnEmit_some_shape {fn : Option Nat} {b : Bool} {fa : List WAct}
    (h : fnEmit fn b = some fa) : fa = [] ∨ ∃ f, fa = [WAct.setFieldName f] := by
  unfold fnEmit at h
  split at h
  · cases fn with
    | none => exact absurd h (by simp)
    | some f => exact Or.inr ⟨f, by simp_all⟩
  · exact Or.inl (by simp_all)

/-- One loop iteration on a scalar-or-null value token, in closed form. -/
theorem step1_scalar (ann : List Nat) (fn : Option Nat) (sv : SVal) (s : LoopSt)
    (fa : List WAct) (hfe : fnEmit fn (s.stack.head? == some IonType.struct) = some fa) :
    step1 (Tok.scalar ann fn sv) s =
      .cont ⟨s.stack, s.wdepth, annBuf' ann s.annotations,
        if isNullS sv then s.values_since_flush else postCount s.stack s.values_since_flush,
        s.trace ++ (annActs ann ++ (fa ++ ([scalarAct sv] ++
          (if isNullS sv then [] else postTrace s.stack s.values_since_flush))))⟩ := by
  simp only [step1]
  rw [hfe]
  cases sv <;> simp [scalarAct, isNullS, List.append_assoc]

/-- One loop iteration on a container-start token, in closed form: both
sides step into a container of the same kind and the depth-0 check does
nothing at the new positive depth. -/
theorem step1_start (ann : List Nat) (fn : Option Nat) (k : IonType) (s : LoopSt)
    (fa : List WAct) (hfe : fnEmit fn (s.stack.head? == some IonType.struct) = some fa) :
    step1 (Tok.start ann fn k) s =
      .cont ⟨k :: s.stack, s.wdepth + 1, annBuf' ann s.annotations, s.values_since_flush,
        s.trace ++ (annActs ann ++ (fa ++ [WAct.stepIn k]))⟩ := by
  simp only [step1]
  rw [hfe]
  simp [postCount, postTrace, List.append_assoc]

/-- One loop iteration on a container-end token while a container is
open, in closed form: both sides step out. -/
theorem step1_end_cons (s : LoopSt) (a : IonType) (S0 : List IonType) (w : Nat)
    (hS : s.stack = a :: S0) (hw : s.wdepth = w + 1) :
    step1 Tok.end_ s =
      .cont ⟨S0, w, s.annotations, postCount S0 s.values_since_flush,
        s.trace ++ ([WAct.stepOut] ++ postTrace S0 s.values_since_flush)⟩ := by
  unfold step1
  rw [hS, hw]
  simp [List.append_assoc]

theorem no_stepIn_scalar_delta {fn : Option Nat} {b : Bool} {ann : List Nat} {fa : List WAct}
    (sv : SVal) (st : List IonType) (c : Nat)
    (hfe : fnEmit fn b = some fa) (k : IonType) :
    WAct.stepIn k ∉ annActs ann ++ (fa ++ ([scalarAct sv] ++
      (if isNullS sv then [] else postTrace st c))) := by
  intro hmem
  simp only [List.mem_append, List.mem_singleton] at hmem
  rcases hmem with hmem | hmem | hmem | hmem
  · simpa using mem_annActs hmem
  · rcases fnEmit_some_shape hfe with rfl | ⟨f, rfl⟩
    · simp at hmem
    · simp at hmem
  · exact (scalarAct_shape sv).2.2.1 k hmem.symm
  · split at hmem
    · simp at hmem
    · simpa using mem_postTrace hmem

theorem no_stepOut_scalar_delta {fn : Option Nat} {b : Bool} {ann : List Nat} {fa : List WAct}
    (sv : SVal) (st : List IonType) (c : Nat)
    (hfe : fnEmit fn b = some fa) :
    WAct.stepOut ∉ annActs ann ++ (fa ++ ([scalarAct sv] ++
      (if isNullS sv then [] else postTrace st c))) := by
  intro hmem
  simp only [List.mem_append, List.mem_singleton] at hmem
  rcases hmem with hmem | hmem | hmem | hmem
  · simpa using mem_annActs hmem
  · rcases fnEmit_some_shape hfe with rfl | ⟨f, rfl⟩
    · simp at hmem
    · simp at hmem
  · exact (scalarAct_shape sv).2.2.2.1 hmem.symm
  · split at hmem
    · simp at hmem
    · simpa using mem_postTrace hmem

/-! ## Claim C3: depth lock-step -/

/-- Claim C3: whenever the Writer depth equals the Reader depth, one loop
iteration preserves the equality; a Reader `step_in` is paired with a
Writer `step_in` of the same container kind in the same iteration, a
Reader `step_out` with a Writer `step_out`, iterations that do not step
emit no step calls, and at normal loop termination both depths are 0. -/
theorem depth_lockstep (toks : List Tok) (s : LoopSt) (h : s.wdepth = s.stack.length) :
    (∀ s2, step toks s = .cont s2 →
      s2.wdepth = s2.stack.length
      ∧ (∀ k, s2.stack = k :: s.stack → WAct.stepIn k ∈ s2.trace.drop s.trace.length)
      ∧ (s2.stack.length + 1 = s.stack.length → WAct.stepOut ∈ s2.trace.drop s.trace.length)
      ∧ (s2.stack = s.stack →
          (∀ k, WAct.stepIn k ∉ s2.trace.drop s.trace.length)
          ∧ WAct.stepOut ∉ s2.trace.drop s.trace.length))
    ∧ (∀ tr, step toks s = .brk tr → s.stack = [] ∧ s.wdepth = 0) := by
  constructor
  · intro s2 hc
    cases toks with
    | nil =>
      simp only [step] at hc
      split at hc <;> simp_all
    | cons t rest =>
      simp only [step] at hc
      cases t with
      | bad n => simp [step1] at hc
      | end_ =>
        cases hS : s.stack with
        | nil => simp [step1, hS] at hc
        | cons a S0 =>
          have hw : s.wdepth = S0.length + 1 := by rw [h, hS]; rfl
          rw [step1_end_cons s a S0 S0.length hS hw] at hc
          cases hc
          dsimp only
          refine ⟨rfl, ?_, ?_, ?_⟩
          · intro k hk
            exfalso
            have hlen := congrArg List.length hk
            simp only [List.length_cons] at hlen
            omega
          · intro _
            rw [List.drop_left]
            simp
          · intro hEq
            exfalso
            have hlen := congrArg List.length hEq
            simp only [List.length_cons] at hlen
            omega
      | scalar ann fn sv =>
        rcases hfe : fnEmit fn (s.stack.head? == some IonType.struct) with _ | fa
        · simp [step1, hfe] at hc
        · rw [step1_scalar ann fn sv s fa hfe] at hc
          cases hc
          dsimp only
          refine ⟨h, ?_, ?_, ?_⟩
          · intro k hk
            exact absurd hk.symm (List.cons_ne_self k s.stack)
          · intro hlen
            omega
          · intro _
            rw [List.drop_left]
            exact ⟨fun k => no_stepIn_scalar_delta sv s.stack s.values_since_flush hfe k,
              no_stepOut_scalar_delta sv s.stack s.values_since_flush hfe⟩
      | start ann fn k0 =>
        rcases hfe : fnEmit fn (s.stack.head? == some IonType.struct) with _ | fa
        · simp [step1, hfe] at hc
        · rw [step1_start ann fn k0 s fa hfe] at hc
          cases hc
          dsimp only
          refine ⟨by simp [h], ?_, ?_, ?_⟩
          · intro k hk
            injection hk with h1 _
            subst h1
            rw [List.drop_left]
            simp
          · intro hlen
            simp only [List.length_cons] at hlen
            omega
          · intro hEq
            exact absurd hEq (List.cons_ne_self k0 s.stack)
  · intro tr hb
    cases toks with
    | nil =>
      simp only [step] at hb
      split at hb <;> simp_all
    | cons t rest =>
      simp only [step] at hb
      cases t with
      | bad n => simp [step1] at hb
      | end_ =>
        cases hS : s.stack with
        | nil => exact ⟨rfl, by rw [h, hS]; rfl⟩
        | cons a S0 =>
          have hw : s.wdepth = S0.length + 1 := by rw [h, hS]; rfl
          rw [step1_end_cons s a S0 S0.length hS hw] at hb
          simp at hb
      | scalar ann fn sv =>
        rcases hfe : fnEmit fn (s.stack.head? == some IonType.struct) with _ | fa
        · simp [step1, hfe] at hb
        · rw [step1_scalar ann fn sv s fa hfe] at hb
          simp at hb
      | start ann fn k0 =>
        rcases hfe : fnEmit fn (s.stack.head? == some IonType.struct) with _ | fa
        · simp [step1, hfe] at hb
        · rw [step1_start ann fn k0 s fa hfe] at hb
          simp at hb

/-- Witness for C3 at the initial state of an empty stream. -/
theorem depth_lockstep_witness : initState.stack = [] ∧ initState.wdepth = 0 :=
  (depth_lockstep [] initState rfl).2 initState.trace (by decide)

/-- The annotation list carried by a value-bearing token. -/
def tokAnn : Tok → Option (List Nat)
  | .scalar ann _ _ => some ann
  | .start ann _ _ => some ann
  | _ => none

/-- Whether a token carries a value (scalar, typed null or container
start). -/
def isValueTok : Tok → Bool
  | .scalar _ _ _ => true
  | .start _ _ _ => true
  | _ => false

/-- The field name carried by a value-bearing token. -/
def tokFn : Tok → Option Nat
  | .scalar _ fn _ => fn
  | .start _ fn _ => fn
  | _ => none

/-! ## Claim C4: annotation order preservation -/

/-- Claim C4: for every value carrying a non-empty annotation sequence,
the transcoder attaches exactly that sequence, in declaration order, to
the Writer before any payload call (it is the first call of the
iteration and no other `set_annotations` call occurs), and the reusable
annotation buffer holds exactly that sequence afterwards (cleared and
refilled, not appended). -/
theorem annotation_order_preserved (t : Tok) (s s2 : LoopSt) (ann : List Nat)
    (hta : tokAnn t = some ann) (hne : ann ≠ []) (hc : step1 t s = .cont s2) :
    s2.annotations = ann
    ∧ ∃ δ, s2.trace = s.trace ++ (WAct.setAnnotations ann :: δ)
        ∧ ∀ l, WAct.setAnnotations l ∉ δ := by
  have hae : ann.isEmpty = false := by
    cases ann with
    | nil => exact absurd rfl hne
    | cons a l => rfl
  cases t with
  | bad n => simp [tokAnn] at hta
  | end_ => simp [tokAnn] at hta
  | scalar ann2 fn sv =>
    have hann : ann2 = ann := by simpa [tokAnn] using hta
    subst hann
    rcases hfe : fnEmit fn (s.stack.head? == some IonType.struct) with _ | fa
    · simp [step1, hfe] at hc
    · rw [step1_scalar ann2 fn sv s fa hfe] at hc
      cases hc
      dsimp only
      refine ⟨by simp [annBuf', hae], ?_⟩
      refine ⟨fa ++ ([scalarAct sv] ++ (if isNullS sv then []
        else postTrace s.stack s.values_since_flush)), ?_, ?_⟩
      · simp [annActs, hae]
      · intro l hmem
        simp only [List.mem_append, List.mem_singleton] at hmem
        rcases hmem with hmem | hmem | hmem
        · rcases fnEmit_some_shape hfe with rfl | ⟨f, rfl⟩
          · simp at hmem
          · simp at hmem
        · exact (scalarAct_shape sv).1 l hmem.symm
        · split at hmem
          · simp at hmem
          · simpa using mem_postTrace hmem
  | start ann2 fn k =>
    have hann : ann2 = ann := by simpa [tokAnn] using hta
    subst hann
    rcases hfe : fnEmit fn (s.stack.head? == some IonType.struct) with _ | fa
    · simp [step1, hfe] at hc
    · rw [step1_start ann2 fn k s fa hfe] at hc
      cases hc
      dsimp only
      refine ⟨by simp [annBuf', hae], ?_⟩
      refine ⟨fa ++ [WAct.stepIn k], ?_, ?_⟩
      · simp [annActs, hae]
      · intro l hmem
        simp only [List.mem_append, List.mem_singleton] at hmem
        rcases hmem with hmem | hmem
        · rcases fnEmit_some_shape hfe with rfl | ⟨f, rfl⟩
          · simp at hmem
          · simp at hmem
        · simp at hmem

/-- Witness for C4 at a concrete annotated value. -/
theorem annotation_order_preserved_witness :
    (LoopSt.mk [] 0 [1, 2, 3] 1
        [WAct.setAnnotations [1, 2, 3], WAct.writeBool true]).annotations = [1, 2, 3]
    ∧ ∃ δ, (LoopSt.mk [] 0 [1, 2, 3] 1
        [WAct.setAnnotations [1, 2, 3], WAct.writeBool true]).trace
          = initState.trace ++ (WAct.setAnnotations [1, 2, 3] :: δ)
        ∧ ∀ l, WAct.setAnnotations l ∉ δ :=
  annotation_order_preserved (Tok.scalar [1, 2, 3] none (SVal.boolS true)) initState
    (LoopSt.mk [] 0 [1, 2, 3] 1 [WAct.setAnnotations [1, 2, 3], WAct.writeBool true])
    [1, 2, 3] rfl (by decide) (by decide)

/-! ## Claim C5: field-name scoping -/

/-- Claim C5: in one iteration that processes a value, a field name is
decoded and attached if and only if the immediately enclosing container
is a struct; inside lists and s-expressions and at top level no
`set_field_name` call is ever performed. -/
theorem field_name_scoping (t : Tok) (s s2 : LoopSt) (hv : isValueTok t = true)
    (hc : step1 t s = .cont s2) :
    ((s.stack.head? == some IonType.struct) = true →
      ∃ f, tokFn t = some f ∧ WAct.setFieldName f ∈ s2.trace.drop s.trace.length)
    ∧ ((s.stack.head? == some IonType.struct) = false →
      ∀ f, WAct.setFieldName f ∉ s2.trace.drop s.trace.length) := by
  cases t with
  | bad n => simp [isValueTok] at hv
  | end_ => simp [isValueTok] at hv
  | scalar ann fn sv =>
    rcases hfe : fnEmit fn (s.stack.head? == some IonType.struct) with _ | fa
    · simp [step1, hfe] at hc
    · rw [step1_scalar ann fn sv s fa hfe] at hc
      cases hc
      dsimp only
      constructor
      · intro hin
        rw [hin] at hfe
        cases fn with
        | none => simp [fnEmit] at hfe
        | some f =>
          simp only [fnEmit, if_true] at hfe
          have hfa : fa = [WAct.setFieldName f] := by simp_all
          subst hfa
          refine ⟨f, rfl, ?_⟩
          rw [List.drop_left]
          simp [tokFn]
      · intro hout
        rw [hout] at hfe
        simp only [fnEmit, Bool.false_eq_true, if_false] at hfe
        have hfa : fa = [] := by simp_all
        subst hfa
        intro f hmem
        rw [List.drop_left] at hmem
        simp only [List.mem_append, List.mem_singleton, List.nil_append] at hmem
        rcases hmem with hmem | hmem | hmem
        · simpa using mem_annActs hmem
        · exact (scalarAct_shape sv).2.1 f hmem.symm
        · split at hmem
          · simp at hmem
          · simpa using mem_postTrace hmem
  | start ann fn k =>
    rcases hfe : fnEmit fn (s.stack.head? == some IonType.struct) with _ | fa
    · simp [step1, hfe] at hc
    · rw [step1_start ann fn k s fa hfe] at hc
      cases hc
      dsimp only
      constructor
      · intro hin
        rw [hin] at hfe
        cases fn with
        | none => simp [fnEmit] at hfe
        | some f =>
          simp only [fnEmit, if_true] at hfe
          have hfa : fa = [WAct.setFieldName f] := by simp_all
          subst hfa
          refine ⟨f, rfl, ?_⟩
          rw [List.drop_left]
          simp [tokFn]
      · intro hout
        rw [hout] at hfe
        simp only [fnEmit, Bool.false_eq_true, if_false] at hfe
        have hfa : fa = [] := by simp_all
        subst hfa
        intro f hmem
        rw [List.drop_left] at hmem
        simp only [List.mem_append, List.mem_singleton, List.nil_append] at hmem
        rcases hmem with hmem | hmem
        · simpa using mem_annActs hmem
        · simp at hmem

/-- Witness for C5 at a concrete struct child. -/
theorem field_name_scoping_witness :
    (((LoopSt.mk [IonType.struct] 1 [] 0 []).stack.head? == some IonType.struct) = true →
      ∃ f, tokFn (Tok.scalar [] (some 4) (SVal.intS 2)) = some f
        ∧ WAct.setFieldName f ∈ ((LoopSt.mk [IonType.struct] 1 [] 0
            [WAct.setFieldName 4, WAct.writeInteger 2]).trace.drop
              (LoopSt.mk [IonType.struct] 1 [] 0 []).trace.length))
    ∧ (((LoopSt.mk [IonType.struct] 1 [] 0 []).stack.head? == some IonType.struct) = false →
      ∀ f, WAct.setFieldName f ∉ ((LoopSt.mk [IonType.struct] 1 [] 0
            [WAct.setFieldName 4, WAct.writeInteger 2]).trace.drop
              (LoopSt.mk [IonType.struct] 1 [] 0 []).trace.length)) :=
  field_name_scoping (Tok.scalar [] (some 4) (SVal.intS 2))
    (LoopSt.mk [IonType.struct] 1 [] 0 [])
    (LoopSt.mk [IonType.struct] 1 [] 0 [WAct.setFieldName 4, WAct.writeInteger 2])
    (by decide) (by decide)

/-! ## Claim C6: typed-null passthrough -/

/-- Claim C6: a value whose null flag is set is emitted as a typed null
of the same type tag after its annotations and field name; no scalar is
decoded, no container is stepped into or out of (Reader stack and Writer
depth are unchanged), and the iteration `continue`s past the depth-0
flush check (counter unchanged). -/
theorem typed_null_passthrough (ann : List Nat) (fn : Option Nat) (ty : IonType)
    (s : LoopSt) (fa : List WAct)
    (hfe : fnEmit fn (s.stack.head? == some IonType.struct) = some fa) :
    step1 (Tok.scalar ann fn (SVal.nullS ty)) s =
      .cont ⟨s.stack, s.wdepth, annBuf' ann s.annotations, s.values_since_flush,
        s.trace ++ (annActs ann ++ (fa ++ [WAct.writeNull ty]))⟩ := by
  rw [step1_scalar ann fn (SVal.nullS ty) s fa hfe]
  simp [isNullS, scalarAct]

/-- Witness for C6 at a concrete annotated typed null. -/
theorem typed_null_passthrough_witness :
    step1 (Tok.scalar [9] none (SVal.nullS IonType.integer)) initState =
      .cont ⟨initState.stack, initState.wdepth, annBuf' [9] initState.annotations,
        initState.values_since_flush,
        initState.trace ++ (annActs [9] ++ ([] ++ [WAct.writeNull IonType.integer]))⟩ :=
  typed_null_passthrough [9] none IonType.integer initState [] (by decide)

/-! ## Flush-freedom of value emission -/

theorem flush_not_mem_metaActs (ann : List Nat) (fn : Option Nat) :
    WAct.flush ∉ metaActs ann fn := by
  intro h
  simp only [metaActs, List.mem_append] at h
  rcases h with h | h
  · simpa using mem_annActs h
  · obtain ⟨f, _, hf⟩ := mem_fnActs h
    simp at hf

mutual
theorem noflushV (fn : Option Nat) (ann : List Nat) (v : IValue) :
    WAct.flush ∉ emitV fn ann v := by
  cases v with
  | scalarV sv =>
    intro h
    simp only [emitV, List.mem_append, List.mem_singleton] at h
    rcases h with h | h
    · exact flush_not_mem_metaActs ann fn h
    · exact (scalarAct_shape sv).2.2.2.2 h.symm
  | listV c =>
    intro h
    simp only [emitV, List.mem_append, List.mem_cons, List.mem_singleton] at h
    rcases h with h | h | h | h
    · exact flush_not_mem_metaActs ann fn h
    · simp at h
    · exact noflushISeq c h
    · simp at h
  | sexpV c =>
    intro h
    simp only [emitV, List.mem_append, List.mem_cons, List.mem_singleton] at h
    rcases h with h | h | h | h
    · exact flush_not_mem_metaActs ann fn h
    · simp at h
    · exact noflushISeq c h
    · simp at h
  | structV c =>
    intro h
    simp only [emitV, List.mem_append, List.mem_cons, List.mem_singleton] at h
    rcases h with h | h | h | h
    · exact flush_not_mem_metaActs ann fn h
    · simp at h
    · exact noflushIFSeq c h
    · simp at h

theorem noflushISeq (sq : ISeq) : WAct.flush ∉ emitISeq sq := by
  cases sq with
  | nil => simp [emitISeq]
  | cons ann v r =>
    intro h
    simp only [emitISeq, List.mem_append] at h
    rcases h with h | h
    · exact noflushV none ann v h
    · exact noflushISeq r h

theorem noflushIFSeq (fs : IFSeq) : WAct.flush ∉ emitIFSeq fs := by
  cases fs with
  | fnil => simp [emitIFSeq]
  | fcons f ann v r =>
    intro h
    simp only [emitIFSeq, List.mem_append] at h
    rcases h with h | h
    · exact noflushV (some f) ann v h
    · exact noflushIFSeq r h
end

/-! ## Running the transcoder over one well-formed value -/

/-- `runGo` on a scalar token, one unfolding. -/
theorem runGo_scalar (ann : List Nat) (fn : Option Nat) (sv : SVal) (rest : List Tok)
    (S : List IonType) (w : Nat) (buf : List Nat) (c : Nat) (tr : List WAct)
    (fa : List WAct) (hfe : fnEmit fn (S.head? == some IonType.struct) = some fa) :
    runGo (Tok.scalar ann fn sv :: rest) ⟨S, w, buf, c, tr⟩
      = runGo rest ⟨S, w, annBuf' ann buf,
          if isNullS sv then c else postCount S c,
          tr ++ (annActs ann ++ (fa ++ ([scalarAct sv] ++
            (if isNullS sv then [] else postTrace S c))))⟩ := by
  simp only [runGo]
  rw [step1_scalar ann fn sv ⟨S, w, buf, c, tr⟩ fa hfe]

/-- `runGo` on a container-start token, one unfolding. -/
theorem runGo_start (ann : List Nat) (fn : Option Nat) (k : IonType) (rest : List Tok)
    (S : List IonType) (w : Nat) (buf : List Nat) (c : Nat) (tr : List WAct)
    (fa : List WAct) (hfe : fnEmit fn (S.head? == some IonType.struct) = some fa) :
    runGo (Tok.start ann fn k :: rest) ⟨S, w, buf, c, tr⟩
      = runGo rest ⟨k :: S, w + 1, annBuf' ann buf, c,
          tr ++ (annActs ann ++ (fa ++ [WAct.stepIn k]))⟩ := by
  simp only [runGo]
  rw [step1_start ann fn k ⟨S, w, buf, c, tr⟩ fa hfe]

/-- `runGo` on a container-end token at positive depth, one unfolding. -/
theorem runGo_end (rest : List Tok) (a : IonType) (S0 : List IonType) (w : Nat)
    (buf : List Nat) (c : Nat) (tr : List WAct) :
    runGo (Tok.end_ :: rest) ⟨a :: S0, w + 1, buf, c, tr⟩
      = runGo rest ⟨S0, w, buf, postCount S0 c,
          tr ++ ([WAct.stepOut] ++ postTrace S0 c)⟩ := by
  simp only [runGo]
  rw [step1_end_cons ⟨a :: S0, w + 1, buf, c, tr⟩ a S0 w rfl rfl]

mutual
/-- Processing one value's tokens from inside a container (Reader stack
non-empty) appends exactly the value's Writer calls and leaves the
stack, depth and counter unchanged. -/
theorem runV (v : IValue) (fn : Option Nat) (ann : List Nat) (a : IonType)
    (S0 : List IonType) (w : Nat) (buf : List Nat) (c : Nat) (tr : List WAct)
    (rest : List Tok)
    (hfn : ((a :: S0).head? == some IonType.struct) = fn.isSome) :
    ∃ buf2, runGo (flattenV fn ann v ++ rest) ⟨a :: S0, w, buf, c, tr⟩
      = runGo rest ⟨a :: S0, w, buf2, c, tr ++ emitV fn ann v⟩ := by
  have hfe := fnEmit_of_isSome fn ((a :: S0).head? == some IonType.struct) hfn
  cases v with
  | scalarV sv =>
    refine ⟨annBuf' ann buf, ?_⟩
    simp only [flattenV, List.cons_append, List.nil_append]
    rw [runGo_scalar ann fn sv rest (a :: S0) w buf c tr (fnActs fn) hfe]
    simp [postCount_cons, postTrace_cons, emitV, metaActs, List.append_assoc]
  | listV ch =>
    obtain ⟨buf2, hrec⟩ := runISeq ch IonType.list (a :: S0) (w + 1) (annBuf' ann buf) c
      (tr ++ (annActs ann ++ (fnActs fn ++ [WAct.stepIn IonType.list])))
      (Tok.end_ :: rest) (by rfl)
    refine ⟨buf2, ?_⟩
    simp only [flattenV, List.cons_append, List.append_assoc, List.singleton_append, List.nil_append]
    rw [runGo_start ann fn IonType.list _ (a :: S0) w buf c tr (fnActs fn) hfe, hrec,
      runGo_end rest IonType.list (a :: S0) w buf2 c _]
    simp [postCount_cons, postTrace_cons, emitV, metaActs, List.append_assoc]
  | sexpV ch =>
    obtain ⟨buf2, hrec⟩ := runISeq ch IonType.sexpression (a :: S0) (w + 1) (annBuf' ann buf) c
      (tr ++ (annActs ann ++ (fnActs fn ++ [WAct.stepIn IonType.sexpression])))
      (Tok.end_ :: rest) (by rfl)
    refine ⟨buf2, ?_⟩
    simp only [flattenV, List.cons_append, List.append_assoc, List.singleton_append, List.nil_append]
    rw [runGo_start ann fn IonType.sexpression _ (a :: S0) w buf c tr (fnActs fn) hfe, hrec,
      runGo_end rest IonType.sexpression (a :: S0) w buf2 c _]
    simp [postCount_cons, postTrace_cons, emitV, metaActs, List.append_assoc]
  | structV ch =>
    obtain ⟨buf2, hrec⟩ := runIFSeq ch IonType.struct (a :: S0) (w + 1) (annBuf' ann buf) c
      (tr ++ (annActs ann ++ (fnActs fn ++ [WAct.stepIn IonType.struct])))
      (Tok.end_ :: rest) (by rfl)
    refine ⟨buf2, ?_⟩
    simp only [flattenV, List.cons_append, List.append_assoc, List.singleton_append, List.nil_append]
    rw [runGo_start ann fn IonType.struct _ (a :: S0) w buf c tr (fnActs fn) hfe, hrec,
      runGo_end rest IonType.struct (a :: S0) w buf2 c _]
    simp [postCount_cons, postTrace_cons, emitV, metaActs, List.append_assoc]

/-- Processing the children of a list or s-expression (non-keyed
containing kind `k`). -/
theorem runISeq (sq : ISeq) (k : IonType) (S0 : List IonType) (w : Nat) (buf : List Nat)
    (c : Nat) (tr : List WAct) (rest : List Tok)
    (hk : ((k :: S0).head? == some IonType.struct) = false) :
    ∃ buf2, runGo (flattenISeq sq ++ rest) ⟨k :: S0, w, buf, c, tr⟩
      = runGo rest ⟨k :: S0, w, buf2, c, tr ++ emitISeq sq⟩ := by
  cases sq with
  | nil =>
    refine ⟨buf, ?_⟩
    simp [flattenISeq, emitISeq]
  | cons ann v r =>
    obtain ⟨buf2, h1⟩ := runV v none ann k S0 w buf c tr (flattenISeq r ++ rest) hk
    obtain ⟨buf3, h2⟩ := runISeq r k S0 w buf2 c (tr ++ emitV none ann v) rest hk
    refine ⟨buf3, ?_⟩
    simp only [flattenISeq, List.append_assoc]
    rw [h1, h2]
    simp [emitISeq, List.append_assoc]

/-- Processing the children of a struct (keyed: every child carries a
field name). -/
theorem runIFSeq (fs : IFSeq) (k : IonType) (S0 : List IonType) (w : Nat) (buf : List Nat)
    (c : Nat) (tr : List WAct) (rest : List Tok)
    (hk : ((k :: S0).head? == some IonType.struct) = true) :
    ∃ buf2, runGo (flattenIFSeq fs ++ rest) ⟨k :: S0, w, buf, c, tr⟩
      = runGo rest ⟨k :: S0, w, buf2, c, tr ++ emitIFSeq fs⟩ := by
  cases fs with
  | fnil =>
    refine ⟨buf, ?_⟩
    simp [flattenIFSeq, emitIFSeq]
  | fcons f ann v r =>
    obtain ⟨buf2, h1⟩ := runV v (some f) ann k S0 w buf c tr (flattenIFSeq r ++ rest) hk
    obtain ⟨buf3, h2⟩ := runIFSeq r k S0 w buf2 c (tr ++ emitV (some f) ann v) rest hk
    refine ⟨buf3, ?_⟩
    simp only [flattenIFSeq, List.append_assoc]
    rw [h1, h2]
    simp [emitIFSeq, List.append_assoc]
end

theorem isNullV_scalarV (sv : SVal) : isNullV (.scalarV sv) = isNullS sv := by
  cases sv <;> rfl

/-- Processing one top-level value: the value's Writer calls are
appended, followed by an intermediate flush exactly when the value is
not a typed null and the incremented counter reaches the threshold. -/
theorem runTop1 (v : IValue) (ann : List Nat) (buf : List Nat) (c : Nat) (tr : List WAct)
    (rest : List Tok) :
    ∃ buf2, runGo (flattenV none ann v ++ rest) ⟨[], 0, buf, c, tr⟩
      = runGo rest ⟨[], 0, buf2, postCnt c v,
          tr ++ (emitV none ann v ++ postFlush c v)⟩ := by
  have hfe : fnEmit none (([] : List IonType).head? == some IonType.struct) = some [] := by
    simp [fnEmit]
  cases v with
  | scalarV sv =>
    refine ⟨annBuf' ann buf, ?_⟩
    simp only [flattenV, List.cons_append, List.nil_append]
    rw [runGo_scalar ann none sv rest [] 0 buf c tr [] hfe]
    cases hnull : isNullS sv with
    | true =>
      simp [hnull, postCnt, postFlush, isNullV_scalarV, emitV, metaActs, fnActs, annActs,
        List.append_assoc]
    | false =>
      simp [hnull, postCnt, postFlush, isNullV_scalarV, postCount, postTrace, emitV,
        metaActs, fnActs, List.append_assoc]
  | listV ch =>
    obtain ⟨buf2, hrec⟩ := runISeq ch IonType.list [] 1 (annBuf' ann buf) c
      (tr ++ (annActs ann ++ ([] ++ [WAct.stepIn IonType.list])))
      (Tok.end_ :: rest) (by rfl)
    refine ⟨buf2, ?_⟩
    simp only [flattenV, List.cons_append, List.append_assoc, List.singleton_append,
      List.nil_append]
    rw [runGo_start ann none IonType.list _ [] 0 buf c tr [] hfe, hrec,
      runGo_end rest IonType.list [] 0 buf2 c _]
    simp [postCnt, postFlush, isNullV, postCount, postTrace, emitV, metaActs, fnActs,
      List.append_assoc]
  | sexpV ch =>
    obtain ⟨buf2, hrec⟩ := runISeq ch IonType.sexpression [] 1 (annBuf' ann buf) c
      (tr ++ (annActs ann ++ ([] ++ [WAct.stepIn IonType.sexpression])))
      (Tok.end_ :: rest) (by rfl)
    refine ⟨buf2, ?_⟩
    simp only [flattenV, List.cons_append, List.append_assoc, List.singleton_append,
      List.nil_append]
    rw [runGo_start ann none IonType.sexpression _ [] 0 buf c tr [] hfe, hrec,
      runGo_end rest IonType.sexpression [] 0 buf2 c _]
    simp [postCnt, postFlush, isNullV, postCount, postTrace, emitV, metaActs, fnActs,
      List.append_assoc]
  | structV ch =>
    obtain ⟨buf2, hrec⟩ := runIFSeq ch IonType.struct [] 1 (annBuf' ann buf) c
      (tr ++ (annActs ann ++ ([] ++ [WAct.stepIn IonType.struct])))
      (Tok.end_ :: rest) (by rfl)
    refine ⟨buf2, ?_⟩
    simp only [flattenV, List.cons_append, List.append_assoc, List.singleton_append,
      List.nil_append]
    rw [runGo_start ann none IonType.struct _ [] 0 buf c tr [] hfe, hrec,
      runGo_end rest IonType.struct [] 0 buf2 c _]
    simp [postCnt, postFlush, isNullV, postCount, postTrace, emitV, metaActs, fnActs,
      List.append_assoc]

/-- Running the transcoder over a whole well-formed top-level stream:
the trace is the values' Writer calls with the counter-driven
intermediate flushes, closed by the one unconditional final flush. -/
theorem runTopList (vs : List (List Nat × IValue)) :
    ∀ (buf : List Nat) (c : Nat) (tr : List WAct),
    runGo (flattenTop vs) ⟨[], 0, buf, c, tr⟩
      = (tr ++ (emitTop c vs ++ [WAct.flush]), none) := by
  induction vs with
  | nil =>
    intro buf c tr
    simp [flattenTop, emitTop, runGo]
  | cons p rest ih =>
    intro buf c tr
    obtain ⟨ann, v⟩ := p
    obtain ⟨buf2, h1⟩ := runTop1 v ann buf c tr (flattenTop rest)
    simp only [flattenTop]
    rw [h1, ih]
    simp [emitTop, List.append_assoc]

theorem countFlush_append (l1 l2 : List WAct) :
    countFlush (l1 ++ l2) = countFlush l1 + countFlush l2 := by
  simp [countFlush, List.count_append]

theorem countFlush_emitTopList (vs : List (List Nat × IValue)) :
    countFlush (emitTopList vs) = 0 := by
  induction vs with
  | nil => rfl
  | cons p rest ih =>
    obtain ⟨ann, v⟩ := p
    simp only [emitTopList, countFlush_append, ih]
    have : countFlush (emitV none ann v) = 0 := by
      simp only [countFlush, List.count_eq_zero]
      exact noflushV none ann v
    omega

theorem emitTop_allnull (vs : List (List Nat × IValue)) :
    ∀ c, (∀ p ∈ vs, isNullV p.2 = true) → emitTop c vs = emitTopList vs := by
  induction vs with
  | nil => intro c _; rfl
  | cons p rest ih =>
    intro c hall
    obtain ⟨ann, v⟩ := p
    have hv : isNullV v = true := hall (ann, v) (by simp)
    simp only [emitTop, emitTopList, postFlush, postCnt, hv, if_true]
    rw [ih c (fun q hq => hall q (by simp [hq]))]
    simp

/-! ## Claim C8: empty stream and the final flush -/

/-- Claim C8: transcoding an empty stream emits no value and performs
exactly the one unconditional final flush, returning success; in
general, whenever the loop terminates normally (`Nothing` at depth 0)
the result is the trace so far plus exactly one final flush, with no
error. -/
theorem empty_stream_final_flush :
    write_all_values (flattenTop []) = ([WAct.flush], none)
    ∧ ∀ (toks : List Tok) (s : LoopSt) (tr : List WAct),
        step toks s = .brk tr → runGo toks s = (tr ++ [WAct.flush], none) := by
  constructor
  · simp [write_all_values, flattenTop, runGo, initState]
  · intro toks s tr hb
    cases toks with
    | nil =>
      simp only [step] at hb
      unfold runGo
      split at hb
      · cases hb
        simp_all
      · cases hb
    | cons t rest =>
      simp only [step] at hb
      unfold runGo
      rw [hb]

/-- Witness for C8 at a concrete empty stream. -/
theorem empty_stream_final_flush_witness :
    runGo [] initState = ([] ++ [WAct.flush], none) :=
  empty_stream_final_flush.2 [] initState [] (by decide)

/-! ## Claim C10: top-level typed nulls bypass the flush accounting -/

/-- Claim C10: the typed-null path `continue`s past the depth-0 flush
check, so a top-level typed null is emitted without touching the
counter; consequently a stream of only top-level typed nulls performs no
intermediate flush for any starting counter value and any length. -/
theorem top_level_null_flush_bypass :
    (∀ (ann : List Nat) (fn : Option Nat) (ty : IonType) (s : LoopSt), s.stack = [] →
      step1 (Tok.scalar ann fn (SVal.nullS ty)) s
        = .cont ⟨[], s.wdepth, annBuf' ann s.annotations, s.values_since_flush,
            s.trace ++ (annActs ann ++ [WAct.writeNull ty])⟩)
    ∧ (∀ (vs : List (List Nat × IValue)) (buf : List Nat) (c : Nat) (tr : List WAct),
        (∀ p ∈ vs, isNullV p.2 = true) →
        runGo (flattenTop vs) ⟨[], 0, buf, c, tr⟩
          = (tr ++ (emitTopList vs ++ [WAct.flush]), none)
        ∧ countFlush (emitTopList vs) = 0) := by
  constructor
  · intro ann fn ty s hS
    have hfe : fnEmit fn (s.stack.head? == some IonType.struct) = some [] := by
      rw [hS]
      cases fn <;> simp [fnEmit]
    rw [step1_scalar ann fn (SVal.nullS ty) s [] hfe]
    simp [hS, isNullS, scalarAct]
  · intro vs buf c tr hall
    refine ⟨?_, countFlush_emitTopList vs⟩
    rw [runTopList vs buf c tr, emitTop_allnull vs c hall]

/-- Witness for C10: one top-level typed null with the counter at 99
(one short of the threshold) still triggers no intermediate flush. -/
theorem top_level_null_flush_bypass_witness :
    runGo (flattenTop (nullTops 1)) ⟨[], 0, [], 99, []⟩
      = ([] ++ (emitTopList (nullTops 1) ++ [WAct.flush]), none)
    ∧ countFlush (emitTopList (nullTops 1)) = 0 :=
  top_level_null_flush_bypass.2 (nullTops 1) [] 99 [] (by decide)

/-- Below the threshold no intermediate flush happens. -/
theorem emitTop_small (vs : List (List Nat × IValue)) :
    ∀ c, c + vs.length < FLUSH_EVERY_N → emitTop c vs = emitTopList vs := by
  induction vs with
  | nil => intro c _; rfl
  | cons p rest ih =>
    intro c hc
    obtain ⟨ann, v⟩ := p
    simp only [List.length_cons] at hc
    rw [show emitTop c ((ann, v) :: rest)
      = emitV none ann v ++ postFlush c v ++ emitTop (postCnt c v) rest from rfl]
    cases hv : isNullV v with
    | true =>
      have hpf : postFlush c v = [] := by simp [postFlush, hv]
      have hpc : postCnt c v = c := by simp [postCnt, hv]
      rw [hpf, hpc, ih c (by omega)]
      simp [emitTopList]
    | false =>
      have hne : (c + 1 == FLUSH_EVERY_N) = false := by
        simp only [FLUSH_EVERY_N] at hc ⊢
        simp only [beq_eq_false_iff_ne, ne_eq]
        omega
      have hpf : postFlush c v = [] := by simp [postFlush, hv, hne]
      have hpc : postCnt c v = c + 1 := by simp [postCnt, hv, hne]
      rw [hpf, hpc, ih (c + 1) (by omega)]
      simp [emitTopList]

/-- A non-null block whose length completes the threshold produces its
values, then one intermediate flush, then the rest from a reset
counter. -/
theorem emitTop_chunk (vs : List (List Nat × IValue)) :
    ∀ (rest : List (List Nat × IValue)) (c : Nat),
    vs ≠ [] → c + vs.length = FLUSH_EVERY_N → (∀ p ∈ vs, isNullV p.2 = false) →
    emitTop c (vs ++ rest) = emitTopList vs ++ (WAct.flush :: emitTop 0 rest) := by
  induction vs with
  | nil => intro rest c hne _ _; exact absurd rfl hne
  | cons p vs2 ih =>
    intro rest c _ hlen hnn
    obtain ⟨ann, v⟩ := p
    have hv : isNullV v = false := hnn (ann, v) (by simp)
    simp only [List.length_cons] at hlen
    cases vs2 with
    | nil =>
      have heq : (c + 1 == FLUSH_EVERY_N) = true := by
        simp only [List.length_nil, Nat.zero_add] at hlen
        simp only [beq_iff_eq]
        omega
      simp only [List.cons_append, List.nil_append]
      rw [show emitTop c ((ann, v) :: rest)
        = emitV none ann v ++ postFlush c v ++ emitTop (postCnt c v) rest from rfl]
      have hpf : postFlush c v = [WAct.flush] := by simp [postFlush, hv, heq]
      have hpc : postCnt c v = 0 := by simp [postCnt, hv, heq]
      rw [hpf, hpc]
      simp [emitTopList, List.append_assoc]
    | cons q vs3 =>
      have hne2 : (c + 1 == FLUSH_EVERY_N) = false := by
        simp only [List.length_cons] at hlen
        simp only [beq_eq_false_iff_ne, ne_eq]
        omega
      simp only [List.cons_append]
      rw [show emitTop c ((ann, v) :: (q :: (vs3 ++ rest)))
        = emitV none ann v ++ postFlush c v ++ emitTop (postCnt c v) (q :: (vs3 ++ rest))
        from rfl]
      have hpf : postFlush c v = [] := by simp [postFlush, hv, hne2]
      have hpc : postCnt c v = c + 1 := by simp [postCnt, hv, hne2]
      rw [hpf, hpc,
        show q :: (vs3 ++ rest) = (q :: vs3) ++ rest from rfl,
        ih rest (c + 1) (by simp) (by simp only [List.length_cons] at hlen ⊢; omega)
          (fun q2 hq => hnn q2 (by simp [hq]))]
      simp [emitTopList, List.append_assoc]

/-! ## Claim C2 (amended): flush cadence over 250 top-level values -/

/-- Counterexample to C2 as stated: a stream of exactly 250 top-level
values all of which are typed nulls transcodes without error but
performs no intermediate flush at all — its whole trace carries exactly
one (final) flush instead of the claimed two intermediate flushes plus
the final one. -/
theorem flush_cadence_250_cex :
    (nullTops 250).length = 250
    ∧ write_all_values (flattenTop (nullTops 250))
        = (emitTopList (nullTops 250) ++ [WAct.flush], none)
    ∧ countFlush (write_all_values (flattenTop (nullTops 250))).1 = 1 := by
  have hall : ∀ p ∈ nullTops 250, isNullV p.2 = true := by
    intro p hp
    rw [List.eq_of_mem_replicate hp]
    rfl
  have hmain : write_all_values (flattenTop (nullTops 250))
      = (emitTopList (nullTops 250) ++ [WAct.flush], none) := by
    have h := runTopList (nullTops 250) [] 0 []
    rw [emitTop_allnull (nullTops 250) 0 hall, List.nil_append] at h
    exact h
  refine ⟨List.length_replicate 250 _, hmain, ?_⟩
  rw [hmain]
  simp only [countFlush_append, countFlush_emitTopList]
  rfl

/-- Claim C2, amended: the cadence holds for every stream of exactly 250
top-level values none of which is a typed null (typed nulls bypass the
counter, see the counterexample).  The transcode performs exactly one
intermediate flush immediately after the 100th value, one immediately
after the 200th, and one final flush at end of stream; the emitted value
blocks themselves contain no flush. -/
theorem flush_cadence_250_nonnull (vs : List (List Nat × IValue))
    (h250 : vs.length = 250) (hnn : ∀ p ∈ vs, isNullV p.2 = false) :
    write_all_values (flattenTop vs)
      = (emitTopList (vs.take 100) ++ (WAct.flush ::
          (emitTopList ((vs.drop 100).take 100) ++ (WAct.flush ::
            (emitTopList (vs.drop 200) ++ [WAct.flush])))), none)
    ∧ countFlush (emitTopList (vs.take 100)) = 0
    ∧ countFlush (emitTopList ((vs.drop 100).take 100)) = 0
    ∧ countFlush (emitTopList (vs.drop 200)) = 0 := by
  refine ⟨?_, countFlush_emitTopList _, countFlush_emitTopList _, countFlush_emitTopList _⟩
  have hT1len : (vs.take 100).length = 100 := by
    simp [List.length_take, h250]
  have hT2len : ((vs.drop 100).take 100).length = 100 := by
    simp [List.length_take, List.length_drop, h250]
  have hT3len : (vs.drop 200).length = 50 := by
    simp [List.length_drop, h250]
  have hT1ne : vs.take 100 ≠ [] := by
    intro h0
    rw [h0] at hT1len
    simp at hT1len
  have hT2ne : (vs.drop 100).take 100 ≠ [] := by
    intro h0
    rw [h0] at hT2len
    simp at hT2len
  have hsplit : vs = vs.take 100 ++ ((vs.drop 100).take 100 ++ vs.drop 200) := by
    conv_lhs => rw [← List.take_append_drop 100 vs]
    congr 1
    conv_lhs => rw [← List.take_append_drop 100 (vs.drop 100)]
    congr 1
    rw [List.drop_drop]
  have hrun := runTopList vs [] 0 []
  have hchunks : emitTop 0 vs
      = emitTopList (vs.take 100) ++ (WAct.flush ::
          (emitTopList ((vs.drop 100).take 100) ++ (WAct.flush ::
            emitTopList (vs.drop 200)))) := by
    conv_lhs => rw [hsplit]
    rw [emitTop_chunk (vs.take 100) ((vs.drop 100).take 100 ++ vs.drop 200) 0 hT1ne
      (by rw [Nat.zero_add, hT1len]; rfl)
      (fun p hp => hnn p (List.take_subset 100 vs hp))]
    rw [emitTop_chunk ((vs.drop 100).take 100) (vs.drop 200) 0 hT2ne
      (by rw [Nat.zero_add, hT2len]; rfl)
      (fun p hp => hnn p (List.drop_subset 100 vs (List.take_subset 100 (vs.drop 100) hp)))]
    rw [emitTop_small (vs.drop 200) 0 (by rw [Nat.zero_add, hT3len]; simp [FLUSH_EVERY_N])]
  rw [hchunks] at hrun
  simp only [List.nil_append, List.append_assoc, List.cons_append] at hrun
  simp only [write_all_values, initState]
  rw [hrun]

/-- A stream of `n` top-level booleans (used as a concrete non-null
stream). -/
def boolTops (n : Nat) : List (List Nat × IValue) :=
  List.replicate n ([], IValue.scalarV (SVal.boolS true))

/-- Witness for the amended C2 at a concrete stream of 250 top-level
booleans. -/
theorem flush_cadence_250_nonnull_witness :
    (boolTops 250).length = 250
    ∧ (write_all_values (flattenTop (boolTops 250))
        = (emitTopList ((boolTops 250).take 100) ++ (WAct.flush ::
            (emitTopList (((boolTops 250).drop 100).take 100) ++ (WAct.flush ::
              (emitTopList ((boolTops 250).drop 200) ++ [WAct.flush])))), none)
      ∧ countFlush (emitTopList ((boolTops 250).take 100)) = 0
      ∧ countFlush (emitTopList (((boolTops 250).drop 100).take 100)) = 0
      ∧ countFlush (emitTopList ((boolTops 250).drop 200)) = 0) :=
  ⟨List.length_replicate 250 _,
    flush_cadence_250_nonnull (boolTops 250) (List.length_replicate 250 _)
      (fun p hp => by rw [List.eq_of_mem_replicate hp]; rfl)⟩

/-! ## Claim C9: the format selector -/

/-- Claim C9: each of the four validated mode tags selects its Writer
configuration and runs the transcode with it; for every tag in the
closed validated set the selector succeeds, and only unvalidated tags
reach the `unreachable!` arm. -/
theorem format_selector_total (toks : List Tok) :
    (∀ f, f ∈ app_format_values → (write_all_in_format f toks).isSome = true)
    ∧ write_all_in_format ("text") toks = some (WriterKind.text, write_all_values toks)
    ∧ write_all_in_format ("pretty") toks = some (WriterKind.pretty, write_all_values toks)
    ∧ write_all_in_format ("lines") toks = some (WriterKind.lines, write_all_values toks)
    ∧ write_all_in_format ("binary") toks = some (WriterKind.binary, write_all_values toks)
    ∧ ∀ f, f ∉ app_format_values → write_all_in_format f toks = none := by
  refine ⟨?_, rfl, rfl, rfl, rfl, ?_⟩
  · intro f hf
    simp only [app_format_values, List.mem_cons, List.not_mem_nil, or_false] at hf
    rcases hf with rfl | rfl | rfl | rfl <;> rfl
  · intro f hf
    simp only [app_format_values, List.mem_cons, List.not_mem_nil, or_false] at hf
    simp only [write_all_in_format]
    split <;> simp_all

/-- Witness for C9 at the default mode tag. -/
theorem format_selector_total_witness :
    (write_all_in_format ("pretty") []).isSome = true :=
  (format_selector_total []).1 ("pretty") (by decide)

/-! ## Claim C1: float narrowing -/

theorem isZero64_cases (b : Nat) (hb : b < 2 ^ 64) (h : isZero64 b = true) :
    b = 0 ∨ b = 2 ^ 63 := by
  simp only [isZero64, f64ExpOf, f64FracOf, Bool.and_eq_true, beq_iff_eq] at h
  obtain ⟨h1, h2⟩ := h
  have hp52 : (2 : Nat) ^ 52 = 4503599627370496 := by norm_num
  have hp11 : (2 : Nat) ^ 11 = 2048 := by norm_num
  have hp64 : (2 : Nat) ^ 64 = 18446744073709551616 := by norm_num
  have hp63 : (2 : Nat) ^ 63 = 9223372036854775808 := by norm_num
  rw [hp52, hp11] at h1
  rw [hp52] at h2
  rw [hp63]
  rw [hp64] at hb
  omega

/-- A signed zero round-trips to its own bit pattern. -/
theorem zero64_roundtrip (b : Nat) (hb : b < 2 ^ 64) (h : isZero64 b = true) :
    f32_as_f64 (f64_as_f32 b) = b := by
  rcases isZero64_cases b hb h with rfl | rfl
  · decide
  · decide

/-- For non-NaN 64-bit patterns the `==` round-trip test of the source
coincides with bit-identity of the round-trip. -/
theorem narrows_iff (bits : Nat) (hb : bits < 2 ^ 64) (h : isNan64 bits = false) :
    (narrows32 bits = true ↔ f32_as_f64 (f64_as_f32 bits) = bits) := by
  unfold narrows32 f64eq
  cases hn : isNan64 (f32_as_f64 (f64_as_f32 bits)) with
  | true =>
    simp only [hn, Bool.true_or, if_true]
    constructor
    · intro h0
      exact absurd h0 (by simp)
    · intro he
      rw [he] at hn
      rw [h] at hn
      exact absurd hn (by simp)
  | false =>
    simp only [hn, h, Bool.or_self, Bool.false_eq_true, if_false]
    cases hz : (isZero64 (f32_as_f64 (f64_as_f32 bits)) && isZero64 bits) with
    | true =>
      simp only [hz, if_true]
      have hzb : isZero64 bits = true := by
        simp only [Bool.and_eq_true] at hz
        exact hz.2
      exact ⟨fun _ => zero64_roundtrip bits hb hzb, fun _ => trivial⟩
    | false =>
      simp only [hz, Bool.false_eq_true, if_false, beq_iff_eq]

/-- Claim C1 (amended): the float arm emits the 32-bit form exactly when
the round-tripped value compares equal under Rust `==` to the original
64-bit value; the decision is a function of the float bits alone — the
emitted payload below does not depend on the state, position, stack,
annotations or field name.  For non-NaN values the `==` test coincides
with bit-identity of the round trip; NaN values always take the 64-bit
form even when their round trip is bit-identical. -/
theorem float_narrowing_value_only (s : LoopSt) (ann : List Nat) (fn : Option Nat)
    (bits : Nat) (fa : List WAct) (hb : bits < 2 ^ 64)
    (hfe : fnEmit fn (s.stack.head? == some IonType.struct) = some fa) :
    step1 (Tok.scalar ann fn (SVal.floatS bits)) s
      = .cont ⟨s.stack, s.wdepth, annBuf' ann s.annotations,
          postCount s.stack s.values_since_flush,
          s.trace ++ (annActs ann ++ (fa ++
            ([if narrows32 bits then WAct.writeF32 (f64_as_f32 bits)
              else WAct.writeF64 bits]
              ++ postTrace s.stack s.values_since_flush)))⟩
    ∧ (isNan64 bits = true → narrows32 bits = false)
    ∧ (isNan64 bits = false →
        (narrows32 bits = true ↔ f32_as_f64 (f64_as_f32 bits) = bits)) := by
  refine ⟨?_, ?_, fun h => narrows_iff bits hb h⟩
  · rw [step1_scalar ann fn (SVal.floatS bits) s fa hfe]
    simp [isNullS, scalarAct, narrows32]
  · intro hnan
    unfold narrows32 f64eq
    simp [hnan]

/-- Counterexample to C1 as stated: on the canonical quiet NaN the
narrow-then-widen round trip is bit-identical to the input, yet the
transcoder emits the original 64-bit form, because the `==` comparison
in the source is false on NaN; the claimed "32-bit exactly when the
round trip is bit-identical" rule is therefore violated here. -/
theorem float_narrowing_bit_identical_cex :
    f32_as_f64 (f64_as_f32 9221120237041090560) = 9221120237041090560
    ∧ write_all_values [Tok.scalar [] none (SVal.floatS 9221120237041090560)]
        = ([WAct.writeF64 9221120237041090560, WAct.flush], none)
    ∧ write_all_values [Tok.scalar [] none (SVal.floatS 9221120237041090560)]
        ≠ ([WAct.writeF32 (f64_as_f32 9221120237041090560), WAct.flush], none) :=
  ⟨by decide, by decide, by decide⟩

/-- Witness for the amended C1 at the bits of `1.0`. -/
theorem float_narrowing_value_only_witness :
    step1 (Tok.scalar [] none (SVal.floatS 4607182418800017408)) initState
      = .cont ⟨initState.stack, initState.wdepth, annBuf' [] initState.annotations,
          postCount initState.stack initState.values_since_flush,
          initState.trace ++ (annActs [] ++ ([] ++
            ([if narrows32 4607182418800017408 then
                WAct.writeF32 (f64_as_f32 4607182418800017408)
              else WAct.writeF64 4607182418800017408]
              ++ postTrace initState.stack initState.values_since_flush)))⟩
    ∧ (isNan64 4607182418800017408 = true → narrows32 4607182418800017408 = false)
    ∧ (isNan64 4607182418800017408 = false →
        (narrows32 4607182418800017408 = true
          ↔ f32_as_f64 (f64_as_f32 4607182418800017408) = 4607182418800017408)) :=
  float_narrowing_value_only initState [] none 4607182418800017408 []
    (by decide) (by decide)
